import Mathlib

/-!
Verification of the generic Firestore data-access layer of `api-work`
(`validator.go`, packages `main` and `work`).

The Go code is shallowly embedded: the backend document store is a list of
documents (`Doc`), a `firestore.Query` is a record of where/order/limit/offset
clauses (`Query`), and query execution against a fixed collection state is the
pure function `runQuery`.  Library functions from the Go standard library
(`strconv.ParseBool`, `strconv.ParseFloat`, `time.Parse` with the
`"2006-01-02"` layout, `fmt.Sprintf "%v"`) are modelled by executable Lean
functions; `ParseFloat` is restricted to plain decimal literals and float64
arithmetic is modelled by exact rationals, which preserves the structural
behaviour (success/failure of coercion, which values enter a sum) that the
specification talks about.
-/

namespace ApiWork

/-! ## Basic declarative types (`Filter`, `Order`, `Payload`, `ResultList`) -/

/-- Go: `type Operator string`; the constants below are the declared operators. -/
def LESS : String := "<"

def LESSEQUAL : String := "<="

def EQUAL : String := "=="

def GREATER : String := ">"

def GREATEREQUAL : String := ">="

def NOTEQUAL : String := "!="

def ARRAYCONTAINS : String := "array-contains"

/-- Go: `type Type string` constants governing filter value coercion. -/
def STRING : String := "string"

def BOOLEAN : String := "boolean"

def NUMBER : String := "number"

def DATE : String := "timestamp"

/-- Go struct `Filter{Field, Operator, Type, Value}`; `Operator` and `Type`
are string-typed in the source, so they are plain strings here (`Op`, `Ty`). -/
structure Filter where
  Field : String
  Op : String
  Ty : String
  Value : String
deriving DecidableEq

/-- Go struct `Order{Field, Descending}`. -/
structure Order where
  Field : String
  Descending : Bool
deriving DecidableEq

/-- Go struct `Payload{Page, PageSize, Search, Filters, Orders}`; `Page` and
`PageSize` are Go `int`, hence `Int` here. -/
structure Payload where
  Page : Int
  PageSize : Int
  Search : String
  Filters : List Filter
  Orders : List Order

/-- Go struct `ResultList[T]{Count, Data}`. -/
structure ResultList (T : Type) where
  Count : Nat
  Data : List T
deriving DecidableEq

/-! ## Firestore value and document model -/

/-- A primitive Firestore field value.  Numbers (Go `float64`) are modelled by
exact rationals; timestamps by a year/month/day triple (the only way the layer
constructs them). -/
inductive FSPrim where
  | pStr (s : String)
  | pBool (b : Bool)
  | pNum (q : ℚ)
  | pDate (y m d : Nat)
  | pNull
deriving DecidableEq

/-- A Firestore field value: a primitive or an array of primitives (Firestore
arrays cannot nest). -/
inductive FSValue where
  | prim (p : FSPrim)
  | arr (ps : List FSPrim)
deriving DecidableEq

/-- A stored document: its identifier and its field map (association list). -/
structure Doc where
  id : String
  data : List (String × FSValue)
deriving DecidableEq

/-- Field lookup in a document, `doc.Data()[field]` (first binding wins). -/
def Doc.get (d : Doc) (field : String) : Option FSValue :=
  (d.data.find? (fun p => p.1 = field)).map (fun p => p.2)

/-! ## Models of the Go library parsers -/

/-- Go `strconv.ParseBool`: accepts exactly these twelve strings. -/
def parseBool (s : String) : Option Bool :=
  if s = "1" ∨ s = "t" ∨ s = "T" ∨ s = "TRUE" ∨ s = "true" ∨ s = "True" then
    some true
  else if s = "0" ∨ s = "f" ∨ s = "F" ∨ s = "FALSE" ∨ s = "false" ∨ s = "False" then
    some false
  else
    none

/-- Numeric value of a digit string (most significant first). -/
def digitsVal (cs : List Char) : Nat :=
  cs.foldl (fun n c => n * 10 + (c.toNat - Char.toNat '0')) 0

/-- Go `strconv.ParseFloat (.., 64)`, restricted to plain decimal literals
`[+|-] digits [. digits]` with at least one digit; the result is the exact
rational value of the literal. -/
def parseFloat (s : String) : Option ℚ :=
  let signed : Bool × List Char :=
    match s.data with
    | '-' :: rest => (true, rest)
    | '+' :: rest => (false, rest)
    | cs => (false, cs)
  let intPart := signed.2.takeWhile Char.isDigit
  let rest := signed.2.dropWhile Char.isDigit
  let mag : Option ℚ :=
    match rest with
    | [] => if intPart.isEmpty then none else some ((digitsVal intPart : ℚ))
    | '.' :: frac =>
        if frac.all Char.isDigit && !(intPart.isEmpty && frac.isEmpty) then
          some ((digitsVal intPart : ℚ) + (digitsVal frac : ℚ) / ((10 : ℚ) ^ frac.length))
        else none
    | _ => none
  mag.map (fun q => if signed.1 then -q else q)

/-- Leap-year rule used by Go's `time` package. -/
def isLeapYear (y : Nat) : Bool :=
  (y % 4 = 0 && y % 100 ≠ 0) || y % 400 = 0

/-- Days in a month, as validated by Go's `time.Parse`. -/
def daysInMonth (y m : Nat) : Nat :=
  if m = 2 then (if isLeapYear y then 29 else 28)
  else if m = 4 ∨ m = 6 ∨ m = 9 ∨ m = 11 then 30
  else 31

/-- Go `time.Parse("2006-01-02", s)`: a zero-padded `YYYY-MM-DD` calendar date
with a valid month and day; the result is the `(year, month, day)` triple. -/
def parseDate (s : String) : Option (Nat × Nat × Nat) :=
  match s.data with
  | [y1, y2, y3, y4, '-', m1, m2, '-', d1, d2] =>
      if [y1, y2, y3, y4, m1, m2, d1, d2].all Char.isDigit then
        let y := digitsVal [y1, y2, y3, y4]
        let m := digitsVal [m1, m2]
        let d := digitsVal [d1, d2]
        if 1 ≤ m ∧ m ≤ 12 ∧ 1 ≤ d ∧ d ≤ daysInMonth y m then some (y, m, d) else none
      else none
  | _ => none

/-! ## Model of `fmt.Sprintf("%v", value)` on fetched field values -/

/-- Left-pad a numeral with zeros to width `k`. -/
def natPad (s : String) (k : Nat) : String :=
  String.mk (List.replicate (k - s.length) '0') ++ s

/-- Decimal rendering of a rational (Go prints a `float64` as a decimal
literal; a float64 always has a terminating decimal expansion, handled by the
`some k` branch; the fraction fallback cannot arise from a parsed float). -/
def ratToDecimalString (q : ℚ) : String :=
  let sgn := if q < 0 then "-" else ""
  let n := q.num.natAbs
  let d := q.den
  match (List.range 64).find? (fun k => d ∣ 10 ^ k) with
  | some k =>
      if k = 0 then sgn ++ toString (n / d)
      else
        let m := n * 10 ^ k / d
        let s := natPad (toString m) (k + 1)
        sgn ++ s.dropRight k ++ "." ++ s.takeRight k
  | none => sgn ++ toString n ++ "/" ++ toString d

/-- `fmt.Sprintf("%v", ·)` on a primitive value. -/
def primToString : FSPrim → String
  | .pStr s => s
  | .pBool b => if b then "true" else "false"
  | .pNum q => ratToDecimalString q
  | .pDate y m d =>
      natPad (toString y) 4 ++ "-" ++ natPad (toString m) 2 ++ "-" ++
        natPad (toString d) 2 ++ " 00:00:00 +0000 UTC"
  | .pNull => "<nil>"

/-- `fmt.Sprintf("%v", doc.Data()[field])`: a missing key yields the nil
interface, printed `<nil>`; arrays print bracketed and space-separated. -/
def fsToString : Option FSValue → String
  | none => "<nil>"
  | some (.prim p) => primToString p
  | some (.arr ps) => "[" ++ String.intercalate " " (ps.map primToString) ++ "]"

/-! ## Query model and backend execution semantics -/

/-- A `firestore.Query`: accumulated where clauses (field, operator, value),
order-by clauses (field, descending), and optional limit / offset. -/
structure Query where
  wheres : List (String × String × FSValue)
  orders : List (String × Bool)
  qlimit : Option Nat
  qoffset : Option Nat
deriving DecidableEq

/-- `collection.Query`: the base, unrefined query. -/
def emptyQuery : Query := ⟨[], [], none, none⟩

/-- `query.Where(field, op, value)`. -/
def Query.whereQ (q : Query) (field op : String) (v : FSValue) : Query :=
  { q with wheres := q.wheres ++ [(field, op, v)] }

/-- `query.OrderBy(field, dir)`. -/
def Query.orderBy (q : Query) (field : String) (descending : Bool) : Query :=
  { q with orders := q.orders ++ [(field, descending)] }

/-- `query.Limit(n)`. -/
def Query.withLimit (q : Query) (n : Nat) : Query :=
  { q with qlimit := some n }

/-- `query.Offset(n)`. -/
def Query.withOffset (q : Query) (n : Nat) : Query :=
  { q with qoffset := some n }

/-- Cross-type rank used by Firestore's total value ordering. -/
def primRank : FSPrim → Nat
  | .pNull => 0
  | .pBool _ => 1
  | .pNum _ => 2
  | .pDate _ _ _ => 3
  | .pStr _ => 4

/-- Comparison of two primitive values (rank first, then within-type order). -/
def cmpPrim (a b : FSPrim) : Ordering :=
  match a, b with
  | .pBool x, .pBool y => compare x y
  | .pNum x, .pNum y => if x < y then .lt else if y < x then .gt else .eq
  | .pDate y1 m1 d1, .pDate y2 m2 d2 =>
      ((compare y1 y2).then (compare m1 m2)).then (compare d1 d2)
  | .pStr x, .pStr y => compare x y
  | .pNull, .pNull => .eq
  | x, y => compare (primRank x) (primRank y)

/-- Lexicographic comparison of primitive lists (Firestore array ordering). -/
def cmpPrimList : List FSPrim → List FSPrim → Ordering
  | [], [] => .eq
  | [], _ :: _ => .lt
  | _ :: _, [] => .gt
  | a :: as, b :: bs => (cmpPrim a b).then (cmpPrimList as bs)

/-- Comparison of two field values (arrays rank above primitives). -/
def cmpValue (a b : FSValue) : Ordering :=
  match a, b with
  | .prim p, .prim q => cmpPrim p q
  | .prim _, .arr _ => .lt
  | .arr _, .prim _ => .gt
  | .arr ps, .arr qs => cmpPrimList ps qs

/-- Strict comparison used by range operators: Firestore's range predicates
only match values of the same type as the filter value. -/
def valueLt (a b : FSValue) : Bool :=
  match a, b with
  | .prim p, .prim q =>
      primRank p == primRank q && cmpPrim p q == Ordering.lt
  | _, _ => false

/-- One where clause applied to a document field value (document value on the
left, filter value on the right), per operator string. -/
def evalPred (op : String) (dv fv : FSValue) : Bool :=
  if op = EQUAL then dv == fv
  else if op = NOTEQUAL then !(dv == fv)
  else if op = LESS then valueLt dv fv
  else if op = LESSEQUAL then valueLt dv fv || dv == fv
  else if op = GREATER then valueLt fv dv
  else if op = GREATEREQUAL then valueLt fv dv || dv == fv
  else if op = ARRAYCONTAINS then
    match dv, fv with
    | .arr ps, .prim p => ps.contains p
    | _, _ => false
  else false

/-- A document satisfies every where clause; a document missing the filtered
field never matches. -/
def matchesWheres (ws : List (String × String × FSValue)) (d : Doc) : Bool :=
  ws.all (fun w =>
    match d.get w.1 with
    | some dv => evalPred w.2.1 dv w.2.2
    | none => false)

/-- Document comparison under an order-by list, with Firestore's final
tie-break on the document identifier. -/
def cmpDocs (orders : List (String × Bool)) (d1 d2 : Doc) : Ordering :=
  match orders with
  | [] => compare d1.id d2.id
  | (f, descending) :: rest =>
      let c :=
        match d1.get f, d2.get f with
        | some v1, some v2 => cmpValue v1 v2
        | none, some _ => Ordering.lt
        | some _, none => Ordering.gt
        | none, none => Ordering.eq
      let c := if descending then c.swap else c
      match c with
      | .eq => cmpDocs rest d1 d2
      | c => c

/-- The backend's result ordering for a query (with no order-by clauses this
is Firestore's default ordering by document name). -/
def sortDocs (orders : List (String × Bool)) (docs : List Doc) : List Doc :=
  docs.mergeSort (fun a b => cmpDocs orders a b ≠ Ordering.gt)

/-- Execution of a query against the collection's documents: filter
conjunctively, order, then skip `offset` and keep at most `limit` documents. -/
def runQuery (coll : List Doc) (q : Query) : List Doc :=
  let m := coll.filter (matchesWheres q.wheres)
  let s := sortDocs q.orders m
  let s :=
    match q.qoffset with
    | some k => s.drop k
    | none => s
  match q.qlimit with
  | some n => s.take n
  | none => s

/-- `query.NewAggregationQuery().WithCount(..)` (helper `count` in the
source): the server-side count of the query's results. -/
def countAgg (coll : List Doc) (q : Query) : Nat :=
  (runQuery coll q).length

/-! ## Predicate and order builders (`filter`, `order` in the source) -/

/-- Source function `filter(query, filters)`: type-directed coercion of each
filter value; a filter whose value fails to parse is skipped (the loop is also
inlined verbatim in the `package main` versions of List/Count/Sum/SyncList). -/
def filterQ (query : Query) : List Filter → Query
  | [] => query
  | f :: fs =>
      let query :=
        if f.Ty = BOOLEAN then
          match parseBool f.Value with
          | some value => query.whereQ f.Field f.Op (.prim (.pBool value))
          | none => query
        else if f.Ty = NUMBER then
          match parseFloat f.Value with
          | some value => query.whereQ f.Field f.Op (.prim (.pNum value))
          | none => query
        else if f.Ty = DATE then
          match parseDate f.Value with
          | some value => query.whereQ f.Field f.Op (.prim (.pDate value.1 value.2.1 value.2.2))
          | none => query
        else
          query.whereQ f.Field f.Op (.prim (.pStr f.Value))
      filterQ query fs

/-- The coerced backend value of one filter, `none` when coercion fails
(summarises the per-case branches of `filterQ`). -/
def coerce (f : Filter) : Option FSValue :=
  if f.Ty = BOOLEAN then (parseBool f.Value).map (fun b => FSValue.prim (FSPrim.pBool b))
  else if f.Ty = NUMBER then (parseFloat f.Value).map (fun q => FSValue.prim (FSPrim.pNum q))
  else if f.Ty = DATE then
    (parseDate f.Value).map (fun v => FSValue.prim (FSPrim.pDate v.1 v.2.1 v.2.2))
  else some (FSValue.prim (FSPrim.pStr f.Value))

/-- Source function `order(query, orders)`. -/
def orderQ (query : Query) : List Order → Query
  | [] => query
  | o :: os => orderQ (query.orderBy o.Field o.Descending) os

/-- The documents matching a filter list, before any order/limit/offset
(spec-side abbreviation used in theorem statements). -/
def matchedDocs (coll : List Doc) (fs : List Filter) : List Doc :=
  coll.filter (matchesWheres (filterQ emptyQuery fs).wheres)

/-- The matching documents in the order requested by the payload. -/
def orderedMatches (coll : List Doc) (payload : Payload) : List Doc :=
  sortDocs (payload.Orders.map (fun o => (o.Field, o.Descending)))
    (matchedDocs coll payload.Filters)

/-! ## Search indexer -/

/-- The inner double loop of `searchify`: every contiguous substring of the
rune slice with length from `2` up to (strictly below) the full rune length,
outer loop over lengths, inner loop over start indexes. -/
def substringsOf (runes : List Char) : List String :=
  (List.range' 2 (runes.length - 2)).flatMap (fun len =>
    (List.range (runes.length - len + 1)).map (fun start =>
      String.mk ((runes.drop start).take len)))

/-- Go `strings.ToLower`: lower-case each rune (Unicode lowering modelled by
`Char.toLower`, rendered as a plain list map so that it evaluates). -/
def toLowerStr (s : String) : String :=
  String.mk (s.data.map Char.toLower)

/-- Source function `searchify(terms)`: for each non-empty term, lower-case
it, keep the whole term, then append all substrings of rune length in
`[2, full length)`. -/
def searchify : List String → List String
  | [] => []
  | item :: rest =>
      (if 0 < item.length then
        let low := toLowerStr item
        low :: substringsOf low.data
      else []) ++ searchify rest

/-! ## Storage operations

Each operation receives the content of `T`'s backend collection (`coll`) and,
for generic decoding, the Go zero value of `T` and the `DataTo` decoder as
explicit functions.  Backend interactions beyond plain reads are recorded in a
`Call` trace so that "no further query / no mutation" claims are statements
about the trace. -/

/-- One backend interaction, as observed by the store. -/
inductive Call where
  | aggregateCount
  | getAll
  | batchCommit (writes : List (String × String × String))
  | logError
deriving DecidableEq

/-- `StorageGet[T](id)`: fetch by identifier; on "not found" (no such
document) or decode failure the zero value of `T` is returned after logging,
never an error (the return type has no error channel). -/
def StorageGet {T : Type} (zero : T) (decode : Doc → Option T)
    (coll : List Doc) (id : String) : T :=
  match coll.find? (fun d => d.id = id) with
  | none => zero
  | some doc =>
      match decode doc with
      | none => zero
      | some entity => entity

/-- The capability set of a Go `Model` (collection name, document id, search
terms) together with the reflective `Raw` field access used by `StorageSync`:
`SetRaw e raw` is `e` with its `Raw` field replaced by `raw`. -/
structure ModelOps (T : Type) where
  Collection : T → String
  DocId : T → String
  Searchify : T → List String
  SetRaw : T → List String → T

/-- `StorageSync[T](entity)`: compute the target document reference, replace
the (local) entity's `Raw` field by `searchify(entity.Searchify())` via
reflection, upsert the full entity, and return the backend error unchanged
(`setDoc` is the backend's `doc.Set`, returning its error or `none`). -/
def StorageSync {T : Type} (M : ModelOps T) (setDoc : String → String → T → Option String)
    (entity : T) : Option String :=
  let coll := M.Collection entity
  let docId := M.DocId entity
  let entity := M.SetRaw entity (searchify (M.Searchify entity))
  match setDoc coll docId entity with
  | some err => some err
  | none => none

/-- `StorageSyncList[T](filters, field, value)` (refactored version): fetch
all matches; if none, return with no further backend interaction; otherwise
merge-set `{field: value}` on each matched document in one batch commit.
`commitErr` is the backend's response to the commit; a failure is only logged
(the Go function returns nothing), so the caller-visible output is just the
trace. -/
def StorageSyncList (coll : List Doc) (filters : List Filter) (field value : String)
    (commitErr : Option String) : List Call :=
  let query := filterQ emptyQuery filters
  let snap := runQuery coll query
  if snap.length = 0 then [Call.getAll]
  else
    let writes := snap.map (fun doc => (doc.id, field, value))
    [Call.getAll, Call.batchCommit writes] ++
      (match commitErr with
       | some _ => [Call.logError]
       | none => [])

/-- `StorageList[T](payload)` (refactored `package work` version): build the
predicate, count via the aggregation query, short-circuit on zero, otherwise
apply orders, then `Limit(PageSize)` when `PageSize > 0` and
`Offset(Page*PageSize)` when `Page > 0`, fetch and decode (documents failing
to decode are logged and dropped). -/
def StorageList {T : Type} (decode : Doc → Option T) (coll : List Doc)
    (payload : Payload) : ResultList T × List Call :=
  let query := filterQ emptyQuery payload.Filters
  let count := countAgg coll query
  if count = 0 then
    (⟨0, []⟩, [Call.aggregateCount])
  else
    let query := orderQ query payload.Orders
    let query := if payload.PageSize > 0 then query.withLimit payload.PageSize.toNat else query
    let query :=
      if payload.Page > 0 then query.withOffset (payload.Page * payload.PageSize).toNat
      else query
    let snap := runQuery coll query
    (⟨count, snap.filterMap decode⟩, [Call.aggregateCount, Call.getAll])

/-- `StorageList[T](payload)` (naive `package main` version): same inline
filter loop (embedded once as `filterQ`), count by fetching all matches, no
short-circuit, then the same order/limit/offset/fetch/decode pipeline. -/
def StorageListOld {T : Type} (decode : Doc → Option T) (coll : List Doc)
    (payload : Payload) : ResultList T × List Call :=
  let query := filterQ emptyQuery payload.Filters
  let snap0 := runQuery coll query
  let count := snap0.length
  let query := orderQ query payload.Orders
  let query := if payload.PageSize > 0 then query.withLimit payload.PageSize.toNat else query
  let query :=
    if payload.Page > 0 then query.withOffset (payload.Page * payload.PageSize).toNat
    else query
  let snap := runQuery coll query
  (⟨count, snap.filterMap decode⟩, [Call.getAll, Call.getAll])

/-- `StorageSum[T](filters, field)` (refactored version): fetch all matches,
return `0` on an empty match set, otherwise fold over the snapshot adding
every field value whose `%v` rendering parses as a float. -/
def StorageSum (coll : List Doc) (filters : List Filter) (field : String) : ℚ :=
  let query := filterQ emptyQuery filters
  let snap := runQuery coll query
  if snap.length = 0 then 0
  else
    snap.foldl (fun sum doc =>
      match parseFloat (fsToString (doc.get field)) with
      | some v2 => sum + v2
      | none => sum) 0

/-! ## A small heap model for the pass-by-value frame property of `StorageSync`

`StorageSync` takes its entity parameter by value; the reflective `Raw`
substitution writes through `&entity`, the callee's own variable.  The Go
call is modelled on an explicit location heap: the caller's argument lives at
`callerLoc`, the call copies it to the fresh parameter location `entityLoc`,
and the reflective write hits `entityLoc` only. -/

/-- Heap read (first binding wins). -/
def hget {T : Type} (heap : List (Nat × T)) (l : Nat) : Option T :=
  (heap.find? (fun p => p.1 = l)).map (fun p => p.2)

/-- Heap write (shadowing). -/
def hset {T : Type} (heap : List (Nat × T)) (l : Nat) (v : T) : List (Nat × T) :=
  (l, v) :: heap

/-- Execution of the call `StorageSync(x)` where the caller's `x` lives at
`callerLoc`: copy the argument into the parameter's fresh location, compute
the document reference from the copy, substitute the copy's `Raw` field in
place, and upsert the substituted copy. -/
def StorageSyncExec {T : Type} (M : ModelOps T) (setDoc : String → String → T → Option String)
    (heap : List (Nat × T)) (callerLoc entityLoc : Nat) : List (Nat × T) × Option String :=
  match hget heap callerLoc with
  | none => (heap, none)
  | some arg =>
      let heap := hset heap entityLoc arg
      let coll := M.Collection arg
      let docId := M.DocId arg
      let heap := hset heap entityLoc (M.SetRaw arg (searchify (M.Searchify arg)))
      let res :=
        match hget heap entityLoc with
        | some entity =>
            match setDoc coll docId entity with
            | some err => some err
            | none => none
        | none => none
      (heap, res)

/-! ## Concrete example values (used by witnesses) -/

/-- A boolean-typed filter whose value fails `strconv.ParseBool`. -/
def badBoolFilter : Filter := ⟨"Active", "==", "boolean", "not-a-bool"⟩

/-- A payload with no paging, filters or orders. -/
def payloadNone : Payload := ⟨0, 0, "", [], []⟩

/-- A payload requesting the second page of size two. -/
def payloadPageEx : Payload := ⟨1, 2, "", [], []⟩

/-- Four documents with a numeric field, listed out of identifier order. -/
def collEx : List Doc :=
  [⟨"c", [("n", FSValue.prim (FSPrim.pNum 3))]⟩,
   ⟨"a", [("n", FSValue.prim (FSPrim.pNum 1))]⟩,
   ⟨"d", [("n", FSValue.prim (FSPrim.pNum 4))]⟩,
   ⟨"b", [("n", FSValue.prim (FSPrim.pNum 2))]⟩]

/-- A toy `Model` instance over `Nat` whose `Raw` substitution is visible. -/
def natModel : ModelOps Nat :=
  ⟨fun _ => "nats", fun n => toString n, fun _ => ["Go"], fun n raw => n + raw.length⟩

/-! ## Supporting lemmas -/

/-- Membership in the substring pool: exactly the contiguous rune substrings
of length at least `2` and strictly below the full rune length. -/
theorem mem_substringsOf (runes : List Char) (s : String) :
    s ∈ substringsOf runes ↔
      ∃ start len, 2 ≤ len ∧ len < runes.length ∧ start + len ≤ runes.length ∧
        s = String.mk ((runes.drop start).take len) := by
  simp only [substringsOf, List.mem_flatMap, List.mem_map, List.mem_range'_1, List.mem_range]
  constructor
  · rintro ⟨len, ⟨h2, hlt⟩, start, hstart, rfl⟩
    exact ⟨start, len, h2, by omega, by omega, rfl⟩
  · rintro ⟨start, len, h2, hlt, hle, rfl⟩
    exact ⟨len, ⟨h2, by omega⟩, start, by omega, rfl⟩

/-- Per-term membership in the search index. -/
theorem mem_searchify (terms : List String) (s : String) :
    s ∈ searchify terms ↔
      ∃ t ∈ terms, 0 < t.length ∧
        (s = toLowerStr t ∨ s ∈ substringsOf (toLowerStr t).data) := by
  induction terms with
  | nil => simp [searchify]
  | cons item rest ih =>
      simp only [searchify, List.mem_append, ih, List.mem_cons]
      by_cases h : 0 < item.length
      · simp only [if_pos h, List.mem_cons]
        constructor
        · rintro (⟨rfl | hs⟩ | ⟨t, ht, hlen, hts⟩)
          · exact ⟨item, Or.inl rfl, h, Or.inl rfl⟩
          · exact ⟨item, Or.inl rfl, h, Or.inr hs⟩
          · exact ⟨t, Or.inr ht, hlen, hts⟩
        · rintro ⟨t, (rfl | ht), hlen, (rfl | hts)⟩
          · exact Or.inl (Or.inl rfl)
          · exact Or.inl (Or.inr hts)
          · exact Or.inr ⟨t, ht, hlen, Or.inl rfl⟩
          · exact Or.inr ⟨t, ht, hlen, Or.inr hts⟩
      · simp only [if_neg h, List.not_mem_nil, false_or]
        constructor
        · rintro ⟨t, ht, hlen, hts⟩
          exact ⟨t, Or.inr ht, hlen, hts⟩
        · rintro ⟨t, (rfl | ht), hlen, hts⟩
          · exact absurd hlen h
          · exact ⟨t, ht, hlen, hts⟩

/-- One step of the filter builder, summarised through `coerce`. -/
theorem filterQ_cons (q : Query) (f : Filter) (fs : List Filter) :
    filterQ q (f :: fs) =
      filterQ (match coerce f with
        | some v => q.whereQ f.Field f.Op v
        | none => q) fs := by
  simp only [filterQ, coerce]
  split_ifs with hb hn hd
  · cases parseBool f.Value <;> simp
  · cases parseFloat f.Value <;> simp
  · cases parseDate f.Value <;> simp
  · simp

/-- The filter builder never touches the order-by clauses. -/
theorem filterQ_orders (q : Query) (fs : List Filter) :
    (filterQ q fs).orders = q.orders := by
  induction fs generalizing q with
  | nil => rfl
  | cons f fs ih =>
      rw [filterQ_cons]
      cases coerce f <;> simp [ih, Query.whereQ]

/-- The filter builder never touches the limit. -/
theorem filterQ_qlimit (q : Query) (fs : List Filter) :
    (filterQ q fs).qlimit = q.qlimit := by
  induction fs generalizing q with
  | nil => rfl
  | cons f fs ih =>
      rw [filterQ_cons]
      cases coerce f <;> simp [ih, Query.whereQ]

/-- The filter builder never touches the offset. -/
theorem filterQ_qoffset (q : Query) (fs : List Filter) :
    (filterQ q fs).qoffset = q.qoffset := by
  induction fs generalizing q with
  | nil => rfl
  | cons f fs ih =>
      rw [filterQ_cons]
      cases coerce f <;> simp [ih, Query.whereQ]

/-- The order builder never touches the where clauses. -/
theorem orderQ_wheres (q : Query) (os : List Order) :
    (orderQ q os).wheres = q.wheres := by
  induction os generalizing q with
  | nil => rfl
  | cons o os ih => simp [orderQ, ih, Query.orderBy]

/-- The order builder appends the payload's sort keys in sequence. -/
theorem orderQ_orders (q : Query) (os : List Order) :
    (orderQ q os).orders = q.orders ++ os.map (fun o => (o.Field, o.Descending)) := by
  induction os generalizing q with
  | nil => simp [orderQ]
  | cons o os ih => simp [orderQ, ih, Query.orderBy]

/-- The order builder never touches the limit. -/
theorem orderQ_qlimit (q : Query) (os : List Order) :
    (orderQ q os).qlimit = q.qlimit := by
  induction os generalizing q with
  | nil => rfl
  | cons o os ih => simp [orderQ, ih, Query.orderBy]

/-- The order builder never touches the offset. -/
theorem orderQ_qoffset (q : Query) (os : List Order) :
    (orderQ q os).qoffset = q.qoffset := by
  induction os generalizing q with
  | nil => rfl
  | cons o os ih => simp [orderQ, ih, Query.orderBy]

/-- Running the freshly filtered query (no orders, limit, offset yet). -/
theorem runQuery_base (coll : List Doc) (fs : List Filter) :
    runQuery coll (filterQ emptyQuery fs) = sortDocs [] (matchedDocs coll fs) := by
  unfold runQuery
  rw [filterQ_qoffset, filterQ_qlimit, filterQ_orders]
  rfl

/-- The aggregation count of the filtered query is the number of matches. -/
theorem countAgg_filterQ (coll : List Doc) (fs : List Filter) :
    countAgg coll (filterQ emptyQuery fs) = (matchedDocs coll fs).length := by
  rw [countAgg, runQuery_base, sortDocs, List.length_mergeSort]

/-- Sorting permutes the documents. -/
theorem sortDocs_perm (orders : List (String × Bool)) (docs : List Doc) :
    (sortDocs orders docs).Perm docs :=
  List.mergeSort_perm docs _

/-- A match set of length zero is empty. -/
theorem matchedDocs_eq_nil (coll : List Doc) (fs : List Filter)
    (h : (matchedDocs coll fs).length = 0) : matchedDocs coll fs = [] :=
  List.eq_nil_of_length_eq_zero h


theorem runQuery_built (coll : List Doc) (payload : Payload) :
    runQuery coll
      (if payload.Page > 0 then
        (if payload.PageSize > 0 then
            (orderQ (filterQ emptyQuery payload.Filters) payload.Orders).withLimit
              payload.PageSize.toNat
          else orderQ (filterQ emptyQuery payload.Filters) payload.Orders).withOffset
          (payload.Page * payload.PageSize).toNat
       else
        if payload.PageSize > 0 then
          (orderQ (filterQ emptyQuery payload.Filters) payload.Orders).withLimit
            payload.PageSize.toNat
        else orderQ (filterQ emptyQuery payload.Filters) payload.Orders) =
      (if payload.PageSize > 0 then
        (if payload.Page > 0 then
            (orderedMatches coll payload).drop (payload.Page * payload.PageSize).toNat
          else orderedMatches coll payload).take payload.PageSize.toNat
       else
        if payload.Page > 0 then
          (orderedMatches coll payload).drop (payload.Page * payload.PageSize).toNat
        else orderedMatches coll payload) := by
  have horders : (orderQ (filterQ emptyQuery payload.Filters) payload.Orders).orders =
      payload.Orders.map (fun o => (o.Field, o.Descending)) := by
    rw [orderQ_orders, filterQ_orders]
    rfl
  by_cases h1 : payload.PageSize > 0 <;> by_cases h2 : payload.Page > 0 <;>
    simp only [h1, h2, if_true, if_false, ite_true, ite_false] <;>
    unfold runQuery <;>
    simp only [Query.withLimit, Query.withOffset, orderQ_wheres, horders,
      orderQ_qlimit, orderQ_qoffset, filterQ_qlimit, filterQ_qoffset] <;>
    rfl

theorem storageList_data_eq {T : Type} (decode : Doc → Option T) (coll : List Doc)
    (payload : Payload) :
    (StorageList decode coll payload).1.Data =
      ((if payload.PageSize > 0 then
          (if payload.Page > 0 then
              (orderedMatches coll payload).drop (payload.Page * payload.PageSize).toNat
            else orderedMatches coll payload).take payload.PageSize.toNat
        else
          if payload.Page > 0 then
            (orderedMatches coll payload).drop (payload.Page * payload.PageSize).toNat
          else orderedMatches coll payload)).filterMap decode := by
  simp only [StorageList]
  by_cases h : countAgg coll (filterQ emptyQuery payload.Filters) = 0
  · rw [if_pos h]
    have hm : matchedDocs coll payload.Filters = [] :=
      matchedDocs_eq_nil _ _ (by rw [countAgg_filterQ] at h; exact h)
    have hom : orderedMatches coll payload = [] := by
      rw [orderedMatches, hm, sortDocs]
      exact List.mergeSort_nil
    simp [hom]
  · rw [if_neg h]
    show (runQuery coll _).filterMap decode = _
    rw [runQuery_built]

theorem storageList_count_eq {T : Type} (decode : Doc → Option T) (coll : List Doc)
    (payload : Payload) :
    (StorageList decode coll payload).1.Count = (matchedDocs coll payload.Filters).length := by
  simp only [StorageList]
  by_cases h : countAgg coll (filterQ emptyQuery payload.Filters) = 0
  · rw [if_pos h]
    rw [countAgg_filterQ] at h
    exact h.symm
  · rw [if_neg h]
    exact countAgg_filterQ coll payload.Filters


theorem sum_fold_eq (l : List Doc) (field : String) (init : ℚ) :
    l.foldl (fun sum doc =>
      match parseFloat (fsToString (doc.get field)) with
      | some v2 => sum + v2
      | none => sum) init =
      init + (l.map (fun d => (parseFloat (fsToString (d.get field))).getD 0)).sum := by
  induction l generalizing init with
  | nil => simp
  | cons d rest ih =>
      rw [List.foldl_cons, List.map_cons, List.sum_cons]
      cases h : parseFloat (fsToString (d.get field)) with
      | none => rw [ih]; simp
      | some v => rw [ih]; simp only [Option.getD_some]; ring


theorem hget_hset_same {T : Type} (heap : List (Nat × T)) (l : Nat) (v : T) :
    hget (hset heap l v) l = some v := by
  simp [hget, hset]

theorem hget_hset_ne {T : Type} (heap : List (Nat × T)) (l l' : Nat) (v : T)
    (h : l' ≠ l) : hget (hset heap l v) l' = hget heap l' := by
  simp [hget, hset, List.find?_cons, Ne.symm h]


/-! ## Claim theorems and witnesses -/




/-- C1: `searchify` lower-cases each non-empty term and emits the whole
lower-cased term plus every contiguous rune substring of length at least 2 and
strictly below the full rune length; concretely on `["Ab"]` and `["Abcd"]`. -/
theorem searchify_spec :
    searchify ["Ab"] = ["ab"] ∧
    searchify ["Abcd"] = ["abcd", "ab", "bc", "cd", "abc", "bcd"] ∧
    ∀ (terms : List String) (s : String),
      s ∈ searchify terms ↔
        ∃ t ∈ terms, 0 < t.length ∧
          (s = toLowerStr t ∨
            ∃ start len, 2 ≤ len ∧ len < (toLowerStr t).data.length ∧
              start + len ≤ (toLowerStr t).data.length ∧
              s = String.mk (((toLowerStr t).data.drop start).take len)) := by
  refine ⟨by decide, by decide, ?_⟩
  intro terms s
  rw [mem_searchify]
  constructor
  · rintro ⟨t, ht, hlen, h | h⟩
    · exact ⟨t, ht, hlen, Or.inl h⟩
    · exact ⟨t, ht, hlen, Or.inr ((mem_substringsOf _ _).mp h)⟩
  · rintro ⟨t, ht, hlen, h | h⟩
    · exact ⟨t, ht, hlen, Or.inl h⟩
    · exact ⟨t, ht, hlen, Or.inr ((mem_substringsOf _ _).mpr h)⟩

theorem searchify_spec_witness : "bc" ∈ searchify ["Abcd"] :=
  (searchify_spec.2.2 ["Abcd"] "bc").mpr ⟨"Abcd", by decide, by decide,
    Or.inr ⟨1, 2, by decide, by decide, by decide, by decide⟩⟩

/-- C2: the count returned by `StorageList` is the number of documents
matching the filter set before order/limit/offset, and a zero match count
short-circuits to `{0, []}` after the single aggregation query. -/
theorem storageList_count_shortCircuit {T : Type} (decode : Doc → Option T)
    (coll : List Doc) (payload : Payload) :
    (StorageList decode coll payload).1.Count = (matchedDocs coll payload.Filters).length ∧
    ((matchedDocs coll payload.Filters).length = 0 →
      (StorageList decode coll payload).1 = ⟨0, []⟩ ∧
      (StorageList decode coll payload).2 = [Call.aggregateCount]) := by
  refine ⟨storageList_count_eq decode coll payload, fun h0 => ?_⟩
  have h : countAgg coll (filterQ emptyQuery payload.Filters) = 0 := by
    rw [countAgg_filterQ]
    exact h0
  constructor
  · simp only [StorageList]
    rw [if_pos h]
  · simp only [StorageList]
    rw [if_pos h]

theorem storageList_count_shortCircuit_witness :
    (matchedDocs ([] : List Doc) payloadNone.Filters).length = 0 ∧
    (StorageList (T := Doc) some [] payloadNone).1 = ⟨0, []⟩ ∧
    (StorageList (T := Doc) some [] payloadNone).2 = [Call.aggregateCount] :=
  ⟨rfl, (storageList_count_shortCircuit some [] payloadNone).2 rfl⟩

/-- C3: `StorageList` limits the page to `PageSize` exactly when
`PageSize > 0` and skips exactly `Page * PageSize` ordered documents exactly
when `Page > 0`; with `PageSize = 2, Page = 1` the page is the 3rd and 4th
ordered matches, and with `PageSize = 0` neither limit nor skip applies. -/
theorem storageList_pagination {T : Type} (decode : Doc → Option T) (coll : List Doc)
    (payload : Payload) :
    (0 < payload.PageSize → 0 < payload.Page →
      (StorageList decode coll payload).1.Data =
        (((orderedMatches coll payload).drop
            (payload.Page * payload.PageSize).toNat).take payload.PageSize.toNat).filterMap
          decode) ∧
    (0 < payload.PageSize → payload.Page ≤ 0 →
      (StorageList decode coll payload).1.Data =
        ((orderedMatches coll payload).take payload.PageSize.toNat).filterMap decode) ∧
    (payload.PageSize = 0 →
      (StorageList decode coll payload).1.Data =
        (orderedMatches coll payload).filterMap decode) ∧
    (payload.PageSize = 2 → payload.Page = 1 →
      (StorageList decode coll payload).1.Data =
        (((orderedMatches coll payload).drop 2).take 2).filterMap decode) := by
  refine ⟨fun h1 h2 => ?_, fun h1 h2 => ?_, fun h1 => ?_, fun h1 h2 => ?_⟩
  · rw [storageList_data_eq]
    simp [h1, h2]
  · rw [storageList_data_eq]
    have h2' : ¬ payload.Page > 0 := by omega
    simp [h1, h2']
  · rw [storageList_data_eq]
    have h1' : ¬ payload.PageSize > 0 := by omega
    by_cases h2 : payload.Page > 0
    · simp [h1', h2, h1]
    · simp [h1', h2]
  · rw [storageList_data_eq, h1, h2]
    norm_num
    rfl

theorem storageList_pagination_witness :
    payloadPageEx.PageSize = 2 ∧ payloadPageEx.Page = 1 ∧
    (StorageList (T := Doc) some collEx payloadPageEx).1.Data =
      (((orderedMatches collEx payloadPageEx).drop 2).take 2).filterMap some :=
  ⟨rfl, rfl, (storageList_pagination some collEx payloadPageEx).2.2.2 rfl rfl⟩

/-- C4: a filter whose value fails coercion for its declared type is silently
dropped: the built query is exactly the one built without that filter, with
all other filters still applied (and no error channel exists). -/
theorem filterQ_skips_failed (f : Filter) (hf : coerce f = none) :
    ∀ (q : Query) (fs1 fs2 : List Filter),
      filterQ q (fs1 ++ f :: fs2) = filterQ q (fs1 ++ fs2) := by
  intro q fs1
  induction fs1 generalizing q with
  | nil =>
      intro fs2
      rw [List.nil_append, List.nil_append, filterQ_cons, hf]
  | cons g gs ih =>
      intro fs2
      rw [List.cons_append, List.cons_append, filterQ_cons, filterQ_cons]
      exact ih _ _

theorem filterQ_skips_failed_witness :
    coerce badBoolFilter = none ∧
    filterQ emptyQuery [badBoolFilter] = filterQ emptyQuery [] :=
  ⟨by decide, filterQ_skips_failed badBoolFilter (by decide) emptyQuery [] []⟩

/-- C5: `StorageGet` returns the zero value of `T` both when no document has
the identifier and when decoding fails, and the fetched entity otherwise; its
return type is `T`, so no error is ever returned. -/
theorem storageGet_zero_on_failure {T : Type} (zero : T) (decode : Doc → Option T)
    (coll : List Doc) (id : String) :
    (coll.find? (fun d => d.id = id) = none → StorageGet zero decode coll id = zero) ∧
    (∀ doc, coll.find? (fun d => d.id = id) = some doc → decode doc = none →
      StorageGet zero decode coll id = zero) ∧
    (∀ doc entity, coll.find? (fun d => d.id = id) = some doc → decode doc = some entity →
      StorageGet zero decode coll id = entity) := by
  refine ⟨fun h => ?_, fun doc h1 h2 => ?_, fun doc entity h1 h2 => ?_⟩
  · simp [StorageGet, h]
  · simp [StorageGet, h1, h2]
  · simp [StorageGet, h1, h2]

theorem storageGet_zero_on_failure_witness :
    ([] : List Doc).find? (fun d => d.id = "x") = none ∧
    StorageGet (0 : Nat) (fun _ => none) [] "x" = 0 :=
  ⟨rfl, (storageGet_zero_on_failure 0 (fun _ => none) [] "x").1 rfl⟩

/-- C9: for every payload and fixed backend state, the naive `package main`
implementation of List (full fetch for the count, no short-circuit) and the
refactored `package work` implementation (aggregation count plus zero-match
short-circuit) return equal `ResultList` values. -/
theorem storageList_refinement {T : Type} (decode : Doc → Option T) (coll : List Doc)
    (payload : Payload) :
    (StorageListOld decode coll payload).1 = (StorageList decode coll payload).1 := by
  simp only [StorageListOld, StorageList]
  by_cases h : countAgg coll (filterQ emptyQuery payload.Filters) = 0
  · rw [if_pos h]
    have hm : matchedDocs coll payload.Filters = [] :=
      matchedDocs_eq_nil _ _ (by rw [countAgg_filterQ] at h; exact h)
    have hom : orderedMatches coll payload = [] := by
      rw [orderedMatches, hm, sortDocs]
      exact List.mergeSort_nil
    have hcnt : (runQuery coll (filterQ emptyQuery payload.Filters)).length = 0 := h
    have hrun : runQuery coll
        (if payload.Page > 0 then
          (if payload.PageSize > 0 then
              (orderQ (filterQ emptyQuery payload.Filters) payload.Orders).withLimit
                payload.PageSize.toNat
            else orderQ (filterQ emptyQuery payload.Filters) payload.Orders).withOffset
            (payload.Page * payload.PageSize).toNat
         else
          if payload.PageSize > 0 then
            (orderQ (filterQ emptyQuery payload.Filters) payload.Orders).withLimit
              payload.PageSize.toNat
          else orderQ (filterQ emptyQuery payload.Filters) payload.Orders) = [] := by
      rw [runQuery_built, hom]
      simp
    rw [hrun]
    simp [hcnt]
  · rw [if_neg h]
    rfl


/-- C6: `StorageSum` adds exactly those matched field values whose `%v`
rendering parses as a float (others and missing fields contribute nothing),
and returns exactly 0 on an empty match set. -/
theorem storageSum_spec (coll : List Doc) (filters : List Filter) (field : String) :
    StorageSum coll filters field =
      ((matchedDocs coll filters).map
        (fun d => (parseFloat (fsToString (d.get field))).getD 0)).sum ∧
    (matchedDocs coll filters = [] → StorageSum coll filters field = 0) := by
  have hperm := sortDocs_perm [] (matchedDocs coll filters)
  constructor
  · simp only [StorageSum]
    rw [runQuery_base]
    by_cases h : (sortDocs [] (matchedDocs coll filters)).length = 0
    · rw [if_pos h]
      have hm : matchedDocs coll filters = [] := by
        rw [sortDocs, List.length_mergeSort] at h
        exact List.eq_nil_of_length_eq_zero h
      rw [hm]
      simp
    · rw [if_neg h, sum_fold_eq, zero_add]
      exact (hperm.map _).sum_eq
  · intro hm
    simp only [StorageSum]
    rw [runQuery_base, hm]
    simp [sortDocs, List.mergeSort_nil]

theorem storageSum_spec_witness :
    matchedDocs ([] : List Doc) [] = [] ∧ StorageSum [] [] "n" = 0 :=
  ⟨rfl, (storageSum_spec [] [] "n").2 rfl⟩

/-- C7: `StorageSync` upserts, at the entity's collection and document
identifier, the entity with its `Raw` field replaced by
`searchify(entity.Searchify())`, and returns the backend's error unchanged. -/
theorem storageSync_spec {T : Type} (M : ModelOps T)
    (setDoc : String → String → T → Option String) (entity : T) :
    StorageSync M setDoc entity =
      setDoc (M.Collection entity) (M.DocId entity)
        (M.SetRaw entity (searchify (M.Searchify entity))) := by
  simp only [StorageSync]
  cases setDoc (M.Collection entity) (M.DocId entity)
      (M.SetRaw entity (searchify (M.Searchify entity))) <;> rfl

/-- C8: `StorageSyncList` with zero matches performs no batch commit at all;
with matches it issues exactly one batch commit merge-setting `{field: value}`
on each matched document, and a commit failure only adds a log entry (nothing
is returned to the caller either way). -/
theorem storageSyncList_spec (coll : List Doc) (filters : List Filter)
    (field value : String) :
    (matchedDocs coll filters = [] →
      ∀ commitErr, StorageSyncList coll filters field value commitErr = [Call.getAll]) ∧
    (matchedDocs coll filters ≠ [] →
      StorageSyncList coll filters field value none =
        [Call.getAll,
         Call.batchCommit ((sortDocs [] (matchedDocs coll filters)).map
           (fun d => (d.id, field, value)))] ∧
      ∀ err, StorageSyncList coll filters field value (some err) =
        StorageSyncList coll filters field value none ++ [Call.logError]) := by
  constructor
  · intro hm commitErr
    simp only [StorageSyncList]
    rw [runQuery_base, hm]
    simp [sortDocs, List.mergeSort_nil]
  · intro hm
    have hlen : ¬ (sortDocs [] (matchedDocs coll filters)).length = 0 := by
      rw [sortDocs, List.length_mergeSort]
      exact fun h => hm (List.eq_nil_of_length_eq_zero h)
    refine ⟨?_, fun err => ?_⟩
    · simp only [StorageSyncList]
      rw [runQuery_base, if_neg hlen]
      simp
    · simp only [StorageSyncList]
      rw [runQuery_base]
      simp [hlen]

theorem storageSyncList_spec_witness :
    matchedDocs collEx [] ≠ [] ∧
    StorageSyncList collEx [] "Status" "done" none =
      [Call.getAll,
       Call.batchCommit ((sortDocs [] (matchedDocs collEx [])).map
         (fun d => (d.id, "Status", "done")))] :=
  ⟨by decide, ((storageSyncList_spec collEx [] "Status" "done").2 (by decide)).1⟩

/-- C10: the Go call `StorageSync(x)` works on a by-value copy at a fresh
location; the reflective `Raw` substitution hits that copy only, so the
caller's entity is unchanged by the call, while the callee's copy does carry
the substituted `Raw` field and the returned error agrees with the pure
`StorageSync`. -/
theorem storageSync_frame {T : Type} (M : ModelOps T)
    (setDoc : String → String → T → Option String) (heap : List (Nat × T))
    (callerLoc entityLoc : Nat) (hne : entityLoc ≠ callerLoc) :
    hget (StorageSyncExec M setDoc heap callerLoc entityLoc).1 callerLoc =
      hget heap callerLoc ∧
    (∀ x, hget heap callerLoc = some x →
      (StorageSyncExec M setDoc heap callerLoc entityLoc).2 = StorageSync M setDoc x ∧
      hget (StorageSyncExec M setDoc heap callerLoc entityLoc).1 entityLoc =
        some (M.SetRaw x (searchify (M.Searchify x)))) := by
  cases hx : hget heap callerLoc with
  | none =>
      refine ⟨by simp [StorageSyncExec, hx], fun x hx' => absurd hx' (by simp)⟩
  | some arg =>
      refine ⟨?_, fun x hx' => ?_⟩
      · simp only [StorageSyncExec, hx]
        rw [hget_hset_ne _ _ _ _ (Ne.symm hne), hget_hset_ne _ _ _ _ (Ne.symm hne)]
        exact hx
      · have hax : arg = x := Option.some.inj hx'
        subst hax
        constructor
        · simp only [StorageSyncExec, hx, StorageSync]
          rw [hget_hset_same]
        · simp only [StorageSyncExec, hx]
          rw [hget_hset_same]

theorem storageSync_frame_witness :
    (1 : Nat) ≠ 0 ∧
    hget (StorageSyncExec natModel (fun _ _ _ => none) [(0, 5)] 0 1).1 0 =
      hget [((0 : Nat), (5 : Nat))] 0 :=
  ⟨by decide, (storageSync_frame natModel (fun _ _ _ => none) [(0, 5)] 0 1 (by decide)).1⟩

end ApiWork
